import Mathlib

/-!
Shallow embedding of `src/game.ts` from the ants-vs-bees game engine.

Heap objects of class `Place` are modelled by natural-number identifiers
mapping to `PlaceData` records in a `Store`; `Bee` objects are modelled by
natural-number identities (the TypeScript code compares bees by object
identity in `Array.indexOf`).  `undefined`-able fields become
`Option`, JavaScript objects used as string-indexed maps become association
lists, and methods become pure state-passing functions returning the updated
state together with the TypeScript return value.
-/

namespace AntsVsBees

/-- The concrete `Ant` subclasses of `ants.ts` that `game.ts` dispatches on
(`instanceof GuardAnt`, `instanceof ScubaAnt`, the `deployAnt` switch). -/
inductive AntKind where
  | Grower
  | Thrower
  | Eater
  | Scuba
  | Guard
  deriving DecidableEq, Repr

/-- The state of an `Ant` object that `game.ts` reads or writes: its class
(`kind`), its `getFoodCost()` value, and the boost set by `setBoost`. -/
structure Ant where
  kind : AntKind
  foodCost : Int
  boost : Option String := none
  deriving DecidableEq, Repr

/- Bees are compared by object identity (`indexOf` in `Place.removeBee`),
so a bee is modelled by a numeric identity (a `Nat`); places on the heap
are likewise identified by numeric identifiers. -/

/-- The fields of a `Place` object: `name`, the `water` flag, the optional
`exit` and `entrance` links, the single regular-ant slot, the single
guard-ant slot, and the list of bees. -/
structure PlaceData where
  name : String := ""
  water : Bool := false
  exit : Option Nat := none
  entrance : Option Nat := none
  ant : Option Ant := none
  guard : Option Ant := none
  bees : List Nat := []
  deriving DecidableEq, Repr, Inhabited

/-- The heap of `Place` objects. -/
abbrev Store := Nat → PlaceData

/-- Heap update at one place identifier. -/
def Store.update (σ : Store) (i : Nat) (d : PlaceData) : Store :=
  fun j => if j = i then d else σ j

namespace Place

/-- `Place.getAnt()`: returns the guard if present, else the regular ant. -/
def getAnt (p : PlaceData) : Option Ant :=
  match p.guard with
  | some g => some g
  | none => p.ant

/-- `Place.getGuardedAnt()`: returns the regular ant slot. -/
def getGuardedAnt (p : PlaceData) : Option Ant := p.ant

/-- `Place.addAnt(ant)`: a `GuardAnt` goes into the guard slot if that slot
is empty, any other ant into the regular slot if that slot is empty;
returns the updated place and the boolean success value. -/
def addAnt (p : PlaceData) (a : Ant) : PlaceData × Bool :=
  if a.kind = AntKind.Guard then
    match p.guard with
    | none => ({ p with guard := some a }, true)
    | some _ => (p, false)
  else
    match p.ant with
    | none => ({ p with ant := some a }, true)
    | some _ => (p, false)

/-- `Place.removeAnt()`: empties the guard slot if occupied, otherwise
empties the regular slot; returns the removed ant (possibly `undefined`). -/
def removeAnt (p : PlaceData) : PlaceData × Option Ant :=
  match p.guard with
  | some g => ({ p with guard := none }, some g)
  | none => ({ p with ant := none }, p.ant)

/-- `Place.addBee(bee)`: pushes the bee onto the bee list. -/
def addBee (p : PlaceData) (b : Nat) : PlaceData :=
  { p with bees := p.bees ++ [b] }

/-- `Array.prototype.indexOf` followed by `splice(index, 1)`: removes the
first occurrence of `b`, a no-op when `b` is absent. -/
def removeFirst (bs : List Nat) (b : Nat) : List Nat :=
  match bs with
  | [] => []
  | x :: xs => if x = b then xs else x :: removeFirst xs b

/-- `Place.removeBee(bee)`: removes the bee by identity if present. -/
def removeBee (p : PlaceData) (b : Nat) : PlaceData :=
  { p with bees := removeFirst p.bees b }

/-- An `Insect` argument is either an ant or a bee
(`instanceof Ant` / `instanceof Bee` dispatch). -/
inductive Insect where
  | ofAnt (a : Ant)
  | ofBee (b : Nat)

/-- `Place.removeInsect(insect)`: dispatches ants to `removeAnt()` —
ignoring which ant was passed — and bees to `removeBee(insect)`. -/
def removeInsect (p : PlaceData) (i : Insect) : PlaceData :=
  match i with
  | Insect.ofAnt _ => (removeAnt p).1
  | Insect.ofBee b => removeBee p b

/-- `Place.act()`: on water terrain, first calls `removeAnt()` when a guard
is present, then calls `removeAnt()` again unless the regular ant is a
`ScubaAnt` (an absent ant is not `instanceof ScubaAnt`, so the second
removal also runs on an empty slot). -/
def act (p : PlaceData) : PlaceData :=
  if p.water then
    let p1 := if p.guard.isSome then (removeAnt p).1 else p
    let p2 :=
      if !(match p1.ant with
           | some a => a.kind = AntKind.Scuba
           | none => false) then (removeAnt p1).1 else p1
    p2
  else p

/-- One step of the `entrance`-chain walk of `getClosestBee`: `dist` is the
loop counter and `fuel = maxDistance + 1 - dist` counts the iterations the
loop guard `dist <= maxDistance` still allows; the walk stops when the
place pointer is `undefined` or the fuel runs out; a place at distance at
least `minDistance` with a nonempty bee list yields its frontmost bee
`bees[0]`. -/
def getClosestBeeAux (σ : Store) (minDistance : Nat) :
    Nat → Option Nat → Nat → Option Nat
  | _, none, _ => none
  | 0, some _, _ => none
  | fuel + 1, some pid, dist =>
    if minDistance ≤ dist ∧ (σ pid).bees ≠ [] then
      (σ pid).bees.head?
    else
      getClosestBeeAux σ minDistance fuel (σ pid).entrance (dist + 1)

/-- `Place.getClosestBee(maxDistance, minDistance = 0)`. -/
def getClosestBee (σ : Store) (pid : Nat) (maxDistance : Nat)
    (minDistance : Nat := 0) : Option Nat :=
  getClosestBeeAux σ minDistance (maxDistance + 1) (some pid) 0

end Place

/-- The state of the `Hive`: its `Place` fields that `game.ts` uses (the
bee list), the bee armor/damage parameters, the `waves` map from attack
turn to the wave's bees, and a counter allocating fresh bee identities for
`new Bee(...)`. -/
structure Hive where
  beeArmor : Int
  beeDamage : Int
  bees : List Nat := []
  waves : List (Nat × List Nat) := []
  nextBeeId : Nat := 0
  deriving DecidableEq, Repr

namespace Hive

/-- `new Hive(beeArmor, beeDamage)`. -/
def init (beeArmor beeDamage : Int) : Hive :=
  { beeArmor := beeArmor, beeDamage := beeDamage }

/-- Lookup in the JavaScript object `waves` (keys are turn numbers). -/
def wavesLookup (ws : List (Nat × List Nat)) (turn : Nat) : Option (List Nat) :=
  (ws.find? (fun kv => kv.1 = turn)).map (fun kv => kv.2)

/-- Assignment `waves[attackTurn] = wave` on the JavaScript object:
replaces an existing binding or appends a fresh one. -/
def wavesSet (ws : List (Nat × List Nat)) (turn : Nat) (wave : List Nat) :
    List (Nat × List Nat) :=
  match ws with
  | [] => [(turn, wave)]
  | kv :: rest =>
    if kv.1 = turn then (turn, wave) :: rest
    else kv :: wavesSet rest turn wave

/-- `Hive.addWave(attackTurn, numBees)`: creates `numBees` fresh bees, adds
each to the hive's bee list, and records the wave under `attackTurn`. -/
def addWave (h : Hive) (attackTurn : Nat) (numBees : Nat) : Hive :=
  let wave := (List.range numBees).map (fun i => h.nextBeeId + i)
  { h with
    bees := h.bees ++ wave
    waves := wavesSet h.waves attackTurn wave
    nextBeeId := h.nextBeeId + numBees }

end Hive

/-- The state of the `AntColony`: food, the `places` grid of place
identifiers, the bee entrances, the queen's place identifier, the boost
inventory (a JavaScript object keyed by boost name), and the heap of
places. -/
structure Colony where
  food : Int
  placesGrid : List (List Nat)
  beeEntrances : List Nat
  queenPlace : Nat
  boosts : List (String × Int)
  store : Store

namespace Colony

/-- A step is water terrain when the moat frequency is nonzero and the
1-based step index `step+1` is divisible by it. -/
def isWaterStep (moatFrequency step : Nat) : Bool :=
  moatFrequency ≠ 0 && (step + 1) % moatFrequency = 0

/-- The `name` string given to the `Place` created at tunnel `t`, step `s`. -/
def stepName (moatFrequency t s : Nat) : String :=
  (if isWaterStep moatFrequency s then "water" else "tunnel") ++
    "[" ++ toString t ++ "," ++ toString s ++ "]"

/-- The identifier of the `Place` object created at tunnel `t`, step `s`
(the queen's place is identifier 0). -/
def pid (tunnelLength t s : Nat) : Nat := 1 + t * tunnelLength + s

/-- One iteration of the inner `step` loop of the `AntColony` constructor:
allocates the new place (`exit := prev`, where `prev` is the place `curr`
built last) and mutates `prev.entrance` to point at it. -/
def stepStore (tunnelLength moatFrequency t step curr : Nat) (σ : Store) :
    Store :=
  let newId := pid tunnelLength t step
  let σ1 := σ.update newId
    { name := stepName moatFrequency t step,
      water := isWaterStep moatFrequency step, exit := some curr }
  σ1.update curr { σ1 curr with entrance := some newId }

/-- The inner `step` loop of the `AntColony` constructor: `count` steps
remain, `step` is the loop counter, `curr` is the identifier of the place
built last (initially the queen's place).  Returns the heap and the final
`curr` (pushed onto `beeEntrances`). -/
def buildSteps (tunnelLength moatFrequency t : Nat) :
    Nat → Nat → Nat → Store → Store × Nat
  | 0, _, curr, σ => (σ, curr)
  | count + 1, step, curr, σ =>
    buildSteps tunnelLength moatFrequency t count (step + 1)
      (pid tunnelLength t step)
      (stepStore tunnelLength moatFrequency t step curr σ)

/-- The outer `tunnel` loop of the `AntColony` constructor: `count` tunnels
remain, `t` is the loop counter; each tunnel starts its walk from the
queen's place (identifier 0) and pushes its last place onto the entrance
list. -/
def buildTunnels (tunnelLength moatFrequency : Nat) :
    Nat → Nat → Store → List Nat → Store × List Nat
  | 0, _, σ, ents => (σ, ents)
  | count + 1, t, σ, ents =>
    buildTunnels tunnelLength moatFrequency count (t + 1)
      (buildSteps tunnelLength moatFrequency t tunnelLength 0 0 σ).1
      (ents ++ [(buildSteps tunnelLength moatFrequency t tunnelLength 0 0 σ).2])

/-- The initial heap: the queen's place (`new Place('Ant Queen')`, no exit,
no entrance) at identifier 0. -/
def initStore : Store :=
  fun i => if i = 0 then { name := "Ant Queen" } else default

/-- `new AntColony(startingFood, numTunnels, tunnelLength, moatFrequency)`.
The `places[tunnel][step]` grid entry is the place allocated at that loop
iteration, whose identifier is `pid tunnelLength tunnel step` by
construction. -/
def mkColony (startingFood : Int) (numTunnels tunnelLength : Nat)
    (moatFrequency : Nat := 0) : Colony :=
  { food := startingFood
    placesGrid := (List.range numTunnels).map
      (fun t => (List.range tunnelLength).map (fun s => pid tunnelLength t s))
    beeEntrances :=
      (buildTunnels tunnelLength moatFrequency numTunnels 0 initStore []).2
    queenPlace := 0
    boosts := [("FlyingLeaf", 1), ("StickyLeaf", 1), ("IcyLeaf", 1), ("BugSpray", 0)]
    store :=
      (buildTunnels tunnelLength moatFrequency numTunnels 0 initStore []).1 }

/-- Lookup in the JavaScript object `boosts`. -/
def boostLookup (bs : List (String × Int)) (k : String) : Option Int :=
  (bs.find? (fun kv => kv.1 = k)).map (fun kv => kv.2)

/-- `AntColony.queenHasBees()`. -/
def queenHasBees (c : Colony) : Bool :=
  ((c.store c.queenPlace).bees).length > 0

/-- `AntColony.getAllBees()`: concatenates the bee lists of every place in
the grid, row by row. -/
def getAllBees (c : Colony) : List Nat :=
  c.placesGrid.foldl
    (fun acc row => row.foldl (fun acc2 p => acc2 ++ (c.store p).bees) acc) []

/-- `AntColony.placesAct()`: every place in the grid acts. -/
def placesAct (c : Colony) : Colony :=
  { c with
    store := c.placesGrid.foldl
      (fun σ row => row.foldl
        (fun σ2 p => Store.update σ2 p (Place.act (σ2 p))) σ)
      c.store }

/-- `AntColony.deployAnt(ant, place)`: checks food, then attempts
`place.addAnt`; deducts the food cost only on success. -/
def deployAnt (c : Colony) (ant : Ant) (p : Nat) : Colony × Option String :=
  if ant.foodCost ≤ c.food then
    let (pd, success) := Place.addAnt (c.store p) ant
    if success then
      ({ c with food := c.food - ant.foodCost,
                store := c.store.update p pd }, none)
    else (c, some "tunnel already occupied")
  else (c, some "not enough food")

/-- `ant.setBoost(boost)` applied to the ant returned by `place.getAnt()`:
the guard when present, else the regular ant. -/
def setBoostOnExposed (p : PlaceData) (boost : String) : PlaceData :=
  match p.guard with
  | some g => { p with guard := some { g with boost := some boost } }
  | none =>
    match p.ant with
    | some a => { p with ant := some { a with boost := some boost } }
    | none => p

/-- `AntColony.applyBoost(boost, place)`: fails when the boost is absent
from the inventory or its count is below one, fails when `place.getAnt()`
is `undefined`, otherwise sets the boost on that ant and succeeds.  The
inventory itself is never modified. -/
def applyBoost (c : Colony) (boost : String) (p : Nat) :
    Colony × Option String :=
  match boostLookup c.boosts boost with
  | none => (c, some "no such boost")
  | some n =>
    if n < 1 then (c, some "no such boost")
    else
      match Place.getAnt (c.store p) with
      | none => (c, some "no Ant at location")
      | some _ =>
        ({ c with store := c.store.update p (setBoostOnExposed (c.store p) boost) },
         none)

end Colony

namespace Hive

/-- One iteration of the `forEach` loop of `Hive.invade`: the bee is
removed from the hive and added to the entrance place at the index drawn
by `Math.floor(Math.random()*entrances.length)` — the fresh random draw of
the iteration is modelled by the oracle `choice`. -/
def invadeStep (choice : Nat → Nat) (hc : Hive × Colony) (b : Nat) :
    Hive × Colony :=
  let h1 := { hc.1 with bees := Place.removeFirst hc.1.bees b }
  let entrances := hc.2.beeEntrances
  match entrances.get? (choice b) with
  | some e =>
    let σ' := Store.update hc.2.store e (Place.addBee (hc.2.store e) b)
    (h1, { hc.2 with store := σ' })
  | none => (h1, hc.2)

/-- `Hive.invade(colony, currentTurn)`: when a wave is scheduled for the
turn, each of its bees is removed from the hive and added to a randomly
selected entrance place (the per-iteration random index is given by the
oracle `choice`); returns the wave, or the empty list when none is
scheduled, mutating nothing. -/
def invade (h : Hive) (c : Colony) (currentTurn : Nat) (choice : Nat → Nat) :
    Hive × Colony × List Nat :=
  match wavesLookup h.waves currentTurn with
  | some wave =>
    let hc := wave.foldl (invadeStep choice) (h, c)
    (hc.1, hc.2, wave)
  | none => (h, c, [])

end Hive

/-- The state of the `AntGame`: the colony, the hive, and the turn
counter, which starts at 0. -/
structure AntGame where
  colony : Colony
  hive : Hive
  turn : Nat := 0

namespace AntGame

/-- `new AntGame(colony, hive)`. -/
def init (c : Colony) (h : Hive) : AntGame := { colony := c, hive := h }

/-- `AntGame.takeTurn()`: the colony's ants act, then its bees act, then
its places act, then the hive invades at the current (pre-increment) turn
number, and finally the turn counter increases by one.  The behaviour of
the individual ants and bees lives in `ants.ts`; the aggregate effect of
`antsAct()` and `beesAct()` on the colony is passed in as the functions
`antsActF` and `beesActF`, and the random entrance selection of `invade`
as the oracle `choice`. -/
def takeTurn (antsActF beesActF : Colony → Colony) (choice : Nat → Nat)
    (g : AntGame) : AntGame :=
  let c1 := antsActF g.colony
  let c2 := beesActF c1
  let c3 := Colony.placesAct c2
  let (h', c4, _wave) := Hive.invade g.hive c3 g.turn choice
  { colony := c4, hive := h', turn := g.turn + 1 }

/-- `AntGame.getTurn()`. -/
def getTurn (g : AntGame) : Nat := g.turn

/-- `AntGame.gameIsWon()`: `false` when bees have reached the queen,
`true` when no bees remain in the colony or the hive, `undefined`
otherwise. -/
def gameIsWon (g : AntGame) : Option Bool :=
  if Colony.queenHasBees g.colony then some false
  else if (Colony.getAllBees g.colony).length + g.hive.bees.length = 0 then
    some true
  else none

/-- Indexing `colony.getPlaces()[coords[0]][coords[1]]`; an out-of-range
coordinate raises (caught as `'illegal location'`). -/
def gridLookup (c : Colony) (t s : Nat) : Option Nat :=
  (c.placesGrid.get? t).bind (fun row => row.get? s)

/-- `AntGame.deployAnt(antType, placeCoordinates)` after the ant has been
constructed from its type string: looks the place up by coordinates and
delegates to the colony. -/
def deployAnt (g : AntGame) (ant : Ant) (t s : Nat) : AntGame × Option String :=
  match gridLookup g.colony t s with
  | none => (g, some "illegal location")
  | some p =>
    let (c', r) := Colony.deployAnt g.colony ant p
    ({ g with colony := c' }, r)

/-- `AntGame.removeAnt(placeCoordinates)`. -/
def removeAnt (g : AntGame) (t s : Nat) : AntGame × Option String :=
  match gridLookup g.colony t s with
  | none => (g, some "illegal location")
  | some p =>
    ({ g with colony := { g.colony with
        store := Store.update g.colony.store p
          (Place.removeAnt (g.colony.store p)).1 } }, none)

/-- `AntGame.boostAnt(boostType, placeCoordinates)`. -/
def boostAnt (g : AntGame) (boost : String) (t s : Nat) :
    AntGame × Option String :=
  match gridLookup g.colony t s with
  | none => (g, some "illegal location")
  | some p =>
    let (c', r) := Colony.applyBoost g.colony boost p
    ({ g with colony := c' }, r)

end AntGame

/-! ### Basic store lemmas -/

theorem Store.update_self (σ : Store) (i : Nat) (d : PlaceData) :
    σ.update i d i = d := by
  simp [Store.update]

theorem Store.update_other (σ : Store) (i : Nat) (d : PlaceData)
    (j : Nat) (h : j ≠ i) : σ.update i d j = σ j := by
  simp [Store.update, h]

/-! ### Claim theorems: place-level operations -/

/-- C9: a place holds at most one regular and one guard defender; `addAnt`
succeeds exactly when the slot matching the ant's kind (guard slot for a
`GuardAnt`, regular slot otherwise) is empty, in which case it binds the
ant to that slot and touches nothing else; when that slot is occupied it
returns `false` and leaves the place unchanged. -/
theorem addAnt_slot_discipline (p : PlaceData) (a : Ant) :
    (a.kind = AntKind.Guard →
      ((Place.addAnt p a).2 = true ↔ p.guard = none) ∧
      (p.guard = none → Place.addAnt p a = ({ p with guard := some a }, true)) ∧
      (p.guard ≠ none → Place.addAnt p a = (p, false))) ∧
    (a.kind ≠ AntKind.Guard →
      ((Place.addAnt p a).2 = true ↔ p.ant = none) ∧
      (p.ant = none → Place.addAnt p a = ({ p with ant := some a }, true)) ∧
      (p.ant ≠ none → Place.addAnt p a = (p, false))) := by
  constructor
  · intro hk
    cases hg : p.guard <;> simp [Place.addAnt, hk, hg]
  · intro hk
    cases ha : p.ant <;> simp [Place.addAnt, hk, ha]

theorem addAnt_slot_discipline_witness :
    Place.addAnt { name := "tunnel[0,0]" } { kind := AntKind.Guard, foodCost := 4 } =
      ({ name := "tunnel[0,0]", guard := some { kind := AntKind.Guard, foodCost := 4 } },
       true) :=
  ((addAnt_slot_discipline { name := "tunnel[0,0]" }
      { kind := AntKind.Guard, foodCost := 4 }).1 rfl).2.1 rfl

/-- C10: when a place holds both a guard and a regular defender,
`removeInsect` applied to the regular defender (indeed to any ant
argument — the argument's identity is ignored) empties the guard slot and
leaves the regular defender in place. -/
theorem removeInsect_evicts_guard_first (p : PlaceData) (g a x : Ant)
    (hg : p.guard = some g) (ha : p.ant = some a) :
    Place.removeInsect p (Place.Insect.ofAnt x) = { p with guard := none } ∧
    (Place.removeInsect p (Place.Insect.ofAnt x)).ant = some a := by
  constructor
  · simp [Place.removeInsect, Place.removeAnt, hg]
  · simp [Place.removeInsect, Place.removeAnt, hg, ha]

theorem removeInsect_evicts_guard_first_witness :
    Place.removeInsect
        { guard := some { kind := AntKind.Guard, foodCost := 4 },
          ant := some { kind := AntKind.Thrower, foodCost := 4 } }
        (Place.Insect.ofAnt { kind := AntKind.Thrower, foodCost := 4 }) =
      { guard := none, ant := some { kind := AntKind.Thrower, foodCost := 4 } } :=
  (removeInsect_evicts_guard_first
      { guard := some { kind := AntKind.Guard, foodCost := 4 },
        ant := some { kind := AntKind.Thrower, foodCost := 4 } }
      { kind := AntKind.Guard, foodCost := 4 }
      { kind := AntKind.Thrower, foodCost := 4 }
      { kind := AntKind.Thrower, foodCost := 4 } rfl rfl).1

/-- C6: `Place.act` on water terrain evicts the guard unconditionally and
evicts the regular defender unless it is the scuba variant, changing
nothing else; on non-water terrain it changes nothing. -/
theorem act_water_spec (p : PlaceData) :
    (p.water = true →
      Place.act p =
        { p with guard := none,
                 ant := match p.ant with
                        | some a => if a.kind = AntKind.Scuba then some a else none
                        | none => none }) ∧
    (p.water = false → Place.act p = p) := by
  obtain ⟨nm, w, ex, en, an, gu, bs⟩ := p
  constructor
  · intro hw
    simp only at hw
    subst hw
    rcases gu with _ | g <;> rcases an with _ | a
    · simp [Place.act, Place.removeAnt]
    · by_cases hs : a.kind = AntKind.Scuba <;>
        simp [Place.act, Place.removeAnt, hs]
    · simp [Place.act, Place.removeAnt]
    · by_cases hs : a.kind = AntKind.Scuba <;>
        simp [Place.act, Place.removeAnt, hs]
  · intro hw
    simp only at hw
    subst hw
    simp [Place.act]

theorem act_water_spec_witness :
    Place.act { water := true,
                guard := some { kind := AntKind.Guard, foodCost := 4 },
                ant := some { kind := AntKind.Scuba, foodCost := 5 } } =
      { water := true, guard := none,
        ant := some { kind := AntKind.Scuba, foodCost := 5 } } := by
  have h := (act_water_spec
      { water := true,
        guard := some { kind := AntKind.Guard, foodCost := 4 },
        ant := some { kind := AntKind.Scuba, foodCost := 5 } }).1 rfl
  simpa using h

/-! ### Claim theorems: colony-level operations -/

/-- C2: `deployAnt` fails with the insufficient-resources reason whenever
food is below the ant's cost, leaving the colony (food and all places)
unchanged; with sufficient food but an occupied slot it fails with
`'tunnel already occupied'` and deducts nothing; only on successful
placement is the cost deducted and success (`undefined`) returned. -/
theorem deployAnt_spec (c : Colony) (a : Ant) (p : Nat) :
    (c.food < a.foodCost →
      Colony.deployAnt c a p = (c, some "not enough food")) ∧
    (a.foodCost ≤ c.food → (Place.addAnt (c.store p) a).2 = false →
      Colony.deployAnt c a p = (c, some "tunnel already occupied")) ∧
    (a.foodCost ≤ c.food → (Place.addAnt (c.store p) a).2 = true →
      Colony.deployAnt c a p =
        ({ c with food := c.food - a.foodCost,
                  store := c.store.update p (Place.addAnt (c.store p) a).1 },
         none)) := by
  refine ⟨fun hlt => ?_, fun hle hocc => ?_, fun hle hok => ?_⟩
  · have : ¬ a.foodCost ≤ c.food := by omega
    simp [Colony.deployAnt, this]
  · simp [Colony.deployAnt, hle, hocc]
  · simp [Colony.deployAnt, hle, hok]

theorem deployAnt_spec_witness :
    Colony.deployAnt (Colony.mkColony 1 1 1 0)
        { kind := AntKind.Thrower, foodCost := 4 } 1 =
      (Colony.mkColony 1 1 1 0, some "not enough food") :=
  (deployAnt_spec (Colony.mkColony 1 1 1 0)
      { kind := AntKind.Thrower, foodCost := 4 } 1).1 (by decide)

/-- C4: `gameIsWon` returns `false` (lost) whenever the queen's place
holds at least one bee — loss taking priority over a simultaneous win —
returns `true` (won) when the queen's place is bee-free and the total bee
count over the colony's places plus the hive is zero, and returns
`undefined` (ongoing) otherwise. -/
theorem gameIsWon_spec (g : AntGame) :
    (Colony.queenHasBees g.colony = true → AntGame.gameIsWon g = some false) ∧
    (Colony.queenHasBees g.colony = false →
      (Colony.getAllBees g.colony).length + g.hive.bees.length = 0 →
      AntGame.gameIsWon g = some true) ∧
    (Colony.queenHasBees g.colony = false →
      (Colony.getAllBees g.colony).length + g.hive.bees.length ≠ 0 →
      AntGame.gameIsWon g = none) := by
  refine ⟨fun hq => ?_, fun hq hz => ?_, fun hq hz => ?_⟩
  · simp [AntGame.gameIsWon, hq]
  · simp [AntGame.gameIsWon, hq, hz]
  · simp [AntGame.gameIsWon, hq, hz]

theorem gameIsWon_spec_witness :
    AntGame.gameIsWon
        (AntGame.init (Colony.mkColony 2 1 1 0) (Hive.init 3 1)) = some true :=
  (gameIsWon_spec
      (AntGame.init (Colony.mkColony 2 1 1 0) (Hive.init 3 1))).2.1
    (by decide) (by decide)

/-- C1 (amended): `applyBoost` fails when the boost is unknown or its
count is below one, and fails when the guard-aware `getAnt` lookup finds
no defender, in both cases changing nothing; otherwise it sets the boost
on the exposed defender and returns success.  The boost inventory is never
modified: no unit is consumed. -/
theorem applyBoost_spec (c : Colony) (b : String) (p : Nat) :
    (Colony.boostLookup c.boosts b = none →
      Colony.applyBoost c b p = (c, some "no such boost")) ∧
    (∀ n, Colony.boostLookup c.boosts b = some n → n < 1 →
      Colony.applyBoost c b p = (c, some "no such boost")) ∧
    (∀ n, Colony.boostLookup c.boosts b = some n → 1 ≤ n →
      Place.getAnt (c.store p) = none →
      Colony.applyBoost c b p = (c, some "no Ant at location")) ∧
    (∀ n a, Colony.boostLookup c.boosts b = some n → 1 ≤ n →
      Place.getAnt (c.store p) = some a →
      Colony.applyBoost c b p =
        ({ c with store :=
            c.store.update p (Colony.setBoostOnExposed (c.store p) b) },
         none)) ∧
    (Colony.applyBoost c b p).1.boosts = c.boosts := by
  refine ⟨fun hn => ?_, fun n hn hlt => ?_, fun n hn hge hno => ?_,
          fun n a hn hge hsome => ?_, ?_⟩
  · simp [Colony.applyBoost, hn]
  · simp [Colony.applyBoost, hn, hlt]
  · have : ¬ n < 1 := by omega
    simp [Colony.applyBoost, hn, this, hno]
  · have : ¬ n < 1 := by omega
    simp [Colony.applyBoost, hn, this, hsome]
  · unfold Colony.applyBoost
    rcases hn : Colony.boostLookup c.boosts b with _ | n
    · rfl
    · by_cases hlt : n < 1
      · simp [hlt]
      · rcases hs : Place.getAnt (c.store p) with _ | a <;> simp [hlt, hs]

/-- The colony of the boost-consumption test: a fresh colony (one tunnel
of length one) with a grower ant deployed at the sole tunnel place. -/
def boostTestColony : Colony :=
  (Colony.deployAnt (Colony.mkColony 10 1 1 0)
      { kind := AntKind.Grower, foodCost := 1 } 1).1

theorem applyBoost_spec_witness :
    Colony.applyBoost boostTestColony "BugSpray" 1 =
      (boostTestColony, some "no such boost") :=
  (applyBoost_spec boostTestColony "BugSpray" 1).2.1 0 (by decide) (by decide)

/-- C1 counterexample: a successful `applyBoost` does not decrement the
boost's remaining count.  On a colony holding one `FlyingLeaf` and a
deployed ant, `applyBoost` succeeds yet the count afterwards is still one,
not zero. -/
theorem applyBoost_not_consumed :
    Colony.boostLookup boostTestColony.boosts "FlyingLeaf" = some 1 ∧
    (Colony.applyBoost boostTestColony "FlyingLeaf" 1).2 = none ∧
    Colony.boostLookup
        (Colony.applyBoost boostTestColony "FlyingLeaf" 1).1.boosts
        "FlyingLeaf" = some 1 := by
  refine ⟨by decide, by decide, by decide⟩

/-! ### Claim theorems: the game loop -/

/-- C3: `takeTurn` performs, in this fixed order, the colony's ants
acting, the colony's bees acting, every place acting, and the hive's
`invade` at the pre-increment turn number, and finally increments the turn
counter — which starts at 0 — by exactly one; the other engine operations
(`deployAnt`, `removeAnt`, `boostAnt`, `gameIsWon`) leave the turn counter
unchanged. -/
theorem takeTurn_spec (f1 f2 : Colony → Colony) (ch : Nat → Nat)
    (g : AntGame) (c : Colony) (h : Hive) :
    AntGame.takeTurn f1 f2 ch g =
      { colony := (Hive.invade g.hive (Colony.placesAct (f2 (f1 g.colony)))
                    g.turn ch).2.1,
        hive := (Hive.invade g.hive (Colony.placesAct (f2 (f1 g.colony)))
                    g.turn ch).1,
        turn := g.turn + 1 } ∧
    (AntGame.init c h).turn = 0 ∧
    (∀ a t s, (AntGame.deployAnt g a t s).1.turn = g.turn) ∧
    (∀ t s, (AntGame.removeAnt g t s).1.turn = g.turn) ∧
    (∀ b t s, (AntGame.boostAnt g b t s).1.turn = g.turn) := by
  refine ⟨rfl, rfl, fun a t s => ?_, fun t s => ?_, fun b t s => ?_⟩
  · unfold AntGame.deployAnt
    rcases AntGame.gridLookup g.colony t s with _ | p <;> simp
  · unfold AntGame.removeAnt
    rcases AntGame.gridLookup g.colony t s with _ | p <;> simp
  · unfold AntGame.boostAnt
    rcases AntGame.gridLookup g.colony t s with _ | p <;> simp

/-! ### Claim C7: `getClosestBee` against its first-qualifying-location
specification -/

/-- The place reached after `d` hops along `entrance` links (`none` once
the chain ends). -/
def chainPlace (σ : Store) : Option Nat → Nat → Option Nat
  | p, 0 => p
  | none, _ + 1 => none
  | some i, d + 1 => chainPlace σ ((σ i).entrance) d

/-- First `some` value of `f` on the `len` distances
`start, start+1, …, start+len-1`, scanned in increasing order. -/
def firstHit (f : Nat → Option Nat) : Nat → Nat → Option Nat
  | 0, _ => none
  | len + 1, start =>
    match f start with
    | some b => some b
    | none => firstHit f len (start + 1)

/-- Written from the claim: the frontmost bee (`bees[0]`) of the first
location along the `entrance` chain whose hop distance `d` satisfies
`minDistance ≤ d ≤ maxDistance` and which holds at least one bee. -/
def closestBeeSpec (σ : Store) (p : Nat) (maxDistance minDistance : Nat) :
    Option Nat :=
  firstHit
    (fun d =>
      if minDistance ≤ d then
        (chainPlace σ (some p) d).bind
          (fun q => if (σ q).bees ≠ [] then (σ q).bees.head? else none)
      else none)
    (maxDistance + 1) 0

theorem firstHit_congr (len : Nat) :
    ∀ (start : Nat) (f g : Nat → Option Nat),
      (∀ d, start ≤ d → d < start + len → f d = g d) →
      firstHit f len start = firstHit g len start := by
  induction len with
  | zero => intro start f g _; rfl
  | succ k ih =>
    intro start f g hfg
    have h0 : f start = g start := hfg start le_rfl (by omega)
    unfold firstHit
    rw [h0]
    rcases g start with _ | b
    · exact ih (start + 1) f g (fun d h1 h2 => hfg d (by omega) (by omega))
    · rfl

theorem firstHit_succ (f : Nat → Option Nat) (len start : Nat) :
    firstHit f (len + 1) start =
      match f start with
      | some b => some b
      | none => firstHit f len (start + 1) := rfl

theorem firstHit_none (len : Nat) :
    ∀ (start : Nat) (f : Nat → Option Nat),
      (∀ d, f d = none) → firstHit f len start = none := by
  induction len with
  | zero => intro start f _; rfl
  | succ k ih =>
    intro start f hf
    unfold firstHit
    rw [hf start]
    exact ih (start + 1) f hf

theorem chainPlace_none (σ : Store) (k : Nat) : chainPlace σ none k = none := by
  cases k <;> rfl

theorem getClosestBeeAux_eq_firstHit (σ : Store) (minD : Nat) :
    ∀ (fuel dist : Nat) (p : Option Nat),
      Place.getClosestBeeAux σ minD fuel p dist =
        firstHit
          (fun d =>
            if minD ≤ d then
              (chainPlace σ p (d - dist)).bind
                (fun q => if (σ q).bees ≠ [] then (σ q).bees.head? else none)
            else none)
          fuel dist := by
  intro fuel
  induction fuel with
  | zero =>
    intro dist p
    rcases p with _ | pid <;> rfl
  | succ k ih =>
    intro dist p
    rcases p with _ | pid
    · exact (firstHit_none (k + 1) dist _
        (fun d => by rw [chainPlace_none]; simp)).symm
    · show (if minD ≤ dist ∧ (σ pid).bees ≠ [] then (σ pid).bees.head?
          else Place.getClosestBeeAux σ minD k ((σ pid).entrance) (dist + 1)) = _
      by_cases hcase : minD ≤ dist ∧ (σ pid).bees ≠ []
      · rw [if_pos hcase]
        rcases hb : (σ pid).bees with _ | ⟨b, bs⟩
        · exact absurd hb hcase.2
        · have hfd : (if minD ≤ dist then
              (chainPlace σ (some pid) (dist - dist)).bind
                (fun q => if (σ q).bees ≠ [] then (σ q).bees.head? else none)
            else none) = some b := by
            rw [Nat.sub_self]
            show (if minD ≤ dist then
                (if (σ pid).bees ≠ [] then (σ pid).bees.head? else none)
              else none) = some b
            rw [if_pos hcase.1, if_pos hcase.2, hb]
            rfl
          rw [firstHit_succ, hfd]
          rfl
      · rw [if_neg hcase, ih (dist + 1) ((σ pid).entrance)]
        have hfd : (if minD ≤ dist then
            (chainPlace σ (some pid) (dist - dist)).bind
              (fun q => if (σ q).bees ≠ [] then (σ q).bees.head? else none)
          else none) = none := by
          rw [Nat.sub_self]
          show (if minD ≤ dist then
              (if (σ pid).bees ≠ [] then (σ pid).bees.head? else none)
            else none) = none
          by_cases hmin : minD ≤ dist
          · have hbe : (σ pid).bees = [] := by
              by_contra hne
              exact hcase ⟨hmin, hne⟩
            rw [if_pos hmin, if_neg (by simp [hbe])]
          · rw [if_neg hmin]
        rw [firstHit_succ, hfd]
        apply firstHit_congr
        intro d h1 _
        have hsub : d - dist = (d - (dist + 1)) + 1 := by omega
        simp only [hsub]
        rfl

/-- C7: `getClosestBee` returns the frontmost bee of the first location
along the `entrance` chain whose hop distance lies between `minDistance`
and `maxDistance` and which holds at least one bee, and `none` when no
such location exists; with `maxDistance = 0` it can only return a bee
occupying the starting place itself. -/
theorem getClosestBee_spec (σ : Store) (p : Nat) (maxD minD : Nat) :
    Place.getClosestBee σ p maxD minD = closestBeeSpec σ p maxD minD ∧
    (∀ b, Place.getClosestBee σ p 0 minD = some b → b ∈ (σ p).bees) := by
  constructor
  · rw [Place.getClosestBee, getClosestBeeAux_eq_firstHit σ minD (maxD + 1) 0]
    exact firstHit_congr (maxD + 1) 0 _ _ (fun d _ _ => by rw [Nat.sub_zero])
  · intro b hb
    rw [Place.getClosestBee] at hb
    unfold Place.getClosestBeeAux at hb
    by_cases hcase : minD ≤ 0 ∧ (σ p).bees ≠ []
    · rw [if_pos hcase] at hb
      exact List.mem_of_mem_head? hb
    · rw [if_neg hcase] at hb
      have hz : ∀ (x : Option Nat) (d : Nat),
          Place.getClosestBeeAux σ minD 0 x d = none := by
        intro x d
        cases x <;> rfl
      rw [hz] at hb
      exact absurd hb (by simp)

/-! ### Claim C5: the `AntColony` constructor -/

/-- The place record created at tunnel `t`, step `s`, with the given exit
identifier and entrance link. -/
def tunnelPlace (m t s : Nat) (exitId : Nat) (ent : Option Nat) :
    PlaceData :=
  { name := Colony.stepName m t s, water := Colony.isWaterStep m s,
    exit := some exitId, entrance := ent }

theorem pid_def (L t s : Nat) : (Colony.pid L t s : Nat) = 1 + t * L + s := rfl

theorem pid_ne_zero (L t s : Nat) : Colony.pid L t s ≠ 0 := by
  show 1 + t * L + s ≠ 0
  omega

theorem pid_injective (L t1 j1 t2 j2 : Nat) (h1 : j1 < L) (h2 : j2 < L)
    (heq : Colony.pid L t1 j1 = Colony.pid L t2 j2) : t1 = t2 ∧ j1 = j2 := by
  have hp : 1 + t1 * L + j1 = 1 + t2 * L + j2 := heq
  rcases Nat.lt_trichotomy t1 t2 with hlt | heqt | hgt
  · have hm : (t1 + 1) * L ≤ t2 * L :=
      Nat.mul_le_mul_right L (by omega)
    rw [Nat.add_mul, Nat.one_mul] at hm
    generalize hA : t1 * L = A at hm hp
    generalize hB : t2 * L = B at hm hp
    omega
  · refine ⟨heqt, ?_⟩
    subst heqt
    generalize hA : t1 * L = A at hp
    omega
  · have hm : (t2 + 1) * L ≤ t1 * L :=
      Nat.mul_le_mul_right L (by omega)
    rw [Nat.add_mul, Nat.one_mul] at hm
    generalize hA : t1 * L = A at hm hp
    generalize hB : t2 * L = B at hm hp
    omega

theorem stepStore_at_new (L m t step curr : Nat) (σ : Store)
    (hcn : curr ≠ Colony.pid L t step) :
    Colony.stepStore L m t step curr σ (Colony.pid L t step) =
      tunnelPlace m t step curr none := by
  unfold Colony.stepStore
  dsimp only
  rw [Store.update_other _ _ _ _ (Ne.symm hcn), Store.update_self]
  rfl

theorem stepStore_at_curr (L m t step curr : Nat) (σ : Store)
    (hcn : curr ≠ Colony.pid L t step) :
    Colony.stepStore L m t step curr σ curr =
      { σ curr with entrance := some (Colony.pid L t step) } := by
  unfold Colony.stepStore
  dsimp only
  rw [Store.update_self, Store.update_other _ _ _ _ hcn]

theorem stepStore_other (L m t step curr : Nat) (σ : Store) (i : Nat)
    (hi1 : i ≠ curr) (hi2 : i ≠ Colony.pid L t step) :
    Colony.stepStore L m t step curr σ i = σ i := by
  unfold Colony.stepStore
  dsimp only
  rw [Store.update_other _ _ _ _ hi1, Store.update_other _ _ _ _ hi2]

theorem buildSteps_spec (L m t : Nat) :
    ∀ (count step curr : Nat) (σ : Store), curr < 1 + t * L + step →
      ((count = 0 → Colony.buildSteps L m t count step curr σ = (σ, curr)) ∧
       (0 < count →
         (Colony.buildSteps L m t count step curr σ).2 =
           Colony.pid L t (step + count - 1) ∧
         (Colony.buildSteps L m t count step curr σ).1 curr =
           { σ curr with entrance := some (Colony.pid L t step) } ∧
         (∀ j, step ≤ j → j < step + count →
           (Colony.buildSteps L m t count step curr σ).1 (Colony.pid L t j) =
             tunnelPlace m t j (if j = step then curr else t * L + j)
               (if j + 1 < step + count then some (Colony.pid L t (j + 1))
                else none))) ∧
       (∀ i, i ≠ curr →
         (∀ j, step ≤ j → j < step + count → i ≠ Colony.pid L t j) →
         (Colony.buildSteps L m t count step curr σ).1 i = σ i)) := by
  intro count
  induction count with
  | zero =>
    intro step curr σ hcurr
    exact ⟨fun _ => rfl, fun h0 => absurd h0 (by omega), fun i _ _ => rfl⟩
  | succ k ih =>
    intro step curr σ hcurr
    have hpidstep : (Colony.pid L t step : Nat) = 1 + t * L + step := rfl
    have hcn : curr ≠ Colony.pid L t step := by omega
    have hunf : Colony.buildSteps L m t (k + 1) step curr σ =
        Colony.buildSteps L m t k (step + 1) (Colony.pid L t step)
          (Colony.stepStore L m t step curr σ) := rfl
    have hlt' : (Colony.pid L t step : Nat) < 1 + t * L + (step + 1) := by
      omega
    obtain ⟨IH0, IHpos, IHframe⟩ :=
      ih (step + 1) (Colony.pid L t step)
        (Colony.stepStore L m t step curr σ) hlt'
    rcases Nat.eq_zero_or_pos k with hk | hk
    · subst hk
      have hR : Colony.buildSteps L m t (0 + 1) step curr σ =
          (Colony.stepStore L m t step curr σ, Colony.pid L t step) := by
        rw [hunf]
        exact IH0 rfl
      refine ⟨fun h0 => absurd h0 (by omega), fun _ => ⟨?_, ?_, ?_⟩,
              fun i hi hij => ?_⟩
      · rw [hR]
        show Colony.pid L t step = Colony.pid L t (step + (0 + 1) - 1)
        have harg : step + (0 + 1) - 1 = step := by omega
        rw [harg]
      · rw [hR]
        show Colony.stepStore L m t step curr σ curr = _
        exact stepStore_at_curr L m t step curr σ hcn
      · intro j hj1 hj2
        have hjs : j = step := by omega
        subst hjs
        rw [hR]
        show Colony.stepStore L m t j curr σ (Colony.pid L t j) = _
        rw [stepStore_at_new L m t j curr σ hcn]
        rw [if_pos rfl, if_neg (show ¬ j + 1 < j + (0 + 1) by omega)]
      · rw [hR]
        show Colony.stepStore L m t step curr σ i = σ i
        exact stepStore_other L m t step curr σ i hi (hij step le_rfl (by omega))
    · obtain ⟨IHlast, IHcurr, IHj⟩ := IHpos hk
      refine ⟨fun h0 => absurd h0 (by omega), fun _ => ⟨?_, ?_, ?_⟩,
              fun i hi hij => ?_⟩
      · rw [hunf, IHlast]
        have harg : step + 1 + k - 1 = step + (k + 1) - 1 := by omega
        rw [harg]
      · rw [hunf]
        have hfr : ∀ j, step + 1 ≤ j → j < step + 1 + k →
            curr ≠ Colony.pid L t j := by
          intro j hj1 hj2
          have hpj : (Colony.pid L t j : Nat) = 1 + t * L + j := rfl
          omega
        rw [IHframe curr hcn hfr]
        exact stepStore_at_curr L m t step curr σ hcn
      · intro j hj1 hj2
        by_cases hjs : j = step
        · subst hjs
          rw [hunf, IHcurr, stepStore_at_new L m t j curr σ hcn]
          rw [if_pos rfl, if_pos (show j + 1 < j + (k + 1) by omega)]
          rfl
        · have hj1' : step + 1 ≤ j := by omega
          rw [hunf, IHj j hj1' (by omega)]
          have hexit : (if j = step + 1 then (Colony.pid L t step : Nat)
              else t * L + j) = (if j = step then curr else t * L + j) := by
            rw [if_neg hjs]
            by_cases hj2' : j = step + 1
            · rw [if_pos hj2', hj2']
              show (Colony.pid L t step : Nat) = t * L + (step + 1)
              omega
            · rw [if_neg hj2']
          have hent : step + 1 + k = step + (k + 1) := by omega
          rw [hexit, hent]
      · rw [hunf, IHframe i (hij step le_rfl (by omega))
          (fun j hj1 hj2 => hij j (by omega) (by omega))]
        exact stepStore_other L m t step curr σ i hi (hij step le_rfl (by omega))

theorem buildTunnels_spec (L m : Nat) (hL : 0 < L) :
    ∀ (count t : Nat) (σ : Store) (ents : List Nat),
      ((Colony.buildTunnels L m count t σ ents).2.length =
        ents.length + count) ∧
      (∀ t' j, t ≤ t' → t' < t + count → j < L →
        (Colony.buildTunnels L m count t σ ents).1 (Colony.pid L t' j) =
          tunnelPlace m t' j (if j = 0 then 0 else t' * L + j)
            (if j + 1 < L then some (Colony.pid L t' (j + 1)) else none)) ∧
      (∀ i, i ≠ 0 →
        (∀ t' j, t ≤ t' → t' < t + count → j < L → i ≠ Colony.pid L t' j) →
        (Colony.buildTunnels L m count t σ ents).1 i = σ i) ∧
      (0 < count → (Colony.buildTunnels L m count t σ ents).1 0 =
        { σ 0 with entrance := some (Colony.pid L (t + count - 1) 0) }) ∧
      (count = 0 → Colony.buildTunnels L m count t σ ents = (σ, ents)) := by
  intro count
  induction count with
  | zero =>
    intro t σ ents
    exact ⟨by simp [Colony.buildTunnels], fun t' j h1 h2 _ => absurd h2 (by omega),
           fun i _ _ => rfl, fun h0 => absurd h0 (by omega), fun _ => rfl⟩
  | succ k ih =>
    intro t σ ents
    have hz : (0 : Nat) < 1 + t * L + 0 := by omega
    obtain ⟨BS0, BSpos, BSframe⟩ := buildSteps_spec L m t L 0 0 σ hz
    obtain ⟨BSlast, BScurr, BSj⟩ := BSpos hL
    have hunf : Colony.buildTunnels L m (k + 1) t σ ents =
        Colony.buildTunnels L m k (t + 1)
          (Colony.buildSteps L m t L 0 0 σ).1
          (ents ++ [(Colony.buildSteps L m t L 0 0 σ).2]) := rfl
    obtain ⟨IHlen, IHj, IHframe, IHqueen, IH0⟩ :=
      ih (t + 1) (Colony.buildSteps L m t L 0 0 σ).1
        (ents ++ [(Colony.buildSteps L m t L 0 0 σ).2])
    have hstepj : ∀ j, j < L →
        (Colony.buildSteps L m t L 0 0 σ).1 (Colony.pid L t j) =
          tunnelPlace m t j (if j = 0 then 0 else t * L + j)
            (if j + 1 < L then some (Colony.pid L t (j + 1)) else none) := by
      intro j hj
      have h := BSj j (Nat.zero_le j) (by omega)
      rwa [Nat.zero_add] at h
    have hdiff : ∀ t' j j', t + 1 ≤ t' → j < L → j' < L →
        Colony.pid L t j ≠ Colony.pid L t' j' := by
      intro t' j j' ht' hj hj' heq
      rcases pid_injective L t j t' j' hj hj' heq with ⟨hteq, _⟩
      omega
    refine ⟨?_, fun t' j h1 h2 hj => ?_, fun i hi hij => ?_, fun _ => ?_, ?_⟩
    · rw [hunf, IHlen]
      simp only [List.length_append, List.length_singleton]
      omega
    · rcases Nat.eq_or_lt_of_le h1 with ht' | ht'
      · rw [hunf, ← ht']
        rw [IHframe (Colony.pid L t j) (pid_ne_zero L t j)
          (fun t'' j'' ht'' _ hj'' => hdiff t'' j j'' ht'' hj hj'')]
        exact hstepj j hj
      · rw [hunf, IHj t' j ht' (by omega) hj]
    · rw [hunf, IHframe i hi
        (fun t' j h1 h2 hj => hij t' j (by omega) (by omega) hj)]
      exact BSframe i hi (fun j hj1 hj2 => hij t j le_rfl (by omega) (by omega))
    · rcases Nat.eq_zero_or_pos k with hk | hk
      · subst hk
        have hR := IH0 rfl
        rw [hunf]
        have : (Colony.buildTunnels L m 0 (t + 1)
            (Colony.buildSteps L m t L 0 0 σ).1
            (ents ++ [(Colony.buildSteps L m t L 0 0 σ).2])).1 =
            (Colony.buildSteps L m t L 0 0 σ).1 := by rw [hR]
        rw [this, BScurr]
        have harg : t + (0 + 1) - 1 = t := by omega
        rw [harg]
      · rw [hunf, IHqueen hk, BScurr]
        have harg : t + 1 + k - 1 = t + (k + 1) - 1 := by omega
        rw [harg]
    · intro h0
      exact absurd h0 (by omega)

/-- C5 (amended): for a colony built with `T ≥ 1` tunnels of length
`L ≥ 1` and moat frequency `m`, the entrance set has exactly `T` elements;
every grid location has `exit` defined while the queen's place has none;
a grid location at 0-based step `s` has `entrance` defined exactly when it
is not the last step of its tunnel (`s + 1 < L`); and it is water terrain
exactly when `m` is nonzero and `s + 1` is divisible by `m`. -/
theorem mkColony_structure (f : Int) (T L m : Nat) (hT : 1 ≤ T) (hL : 1 ≤ L) :
    (Colony.mkColony f T L m).beeEntrances.length = T ∧
    ((Colony.mkColony f T L m).store (Colony.mkColony f T L m).queenPlace).exit
      = none ∧
    (∀ t s, t < T → s < L →
      ((Colony.mkColony f T L m).store (Colony.pid L t s)).exit =
        some (if s = 0 then 0 else t * L + s) ∧
      (((Colony.mkColony f T L m).store (Colony.pid L t s)).entrance.isSome ↔
        s + 1 < L) ∧
      (((Colony.mkColony f T L m).store (Colony.pid L t s)).water = true ↔
        (m ≠ 0 ∧ (s + 1) % m = 0))) := by
  obtain ⟨BTlen, BTj, BTframe, BTqueen, BT0⟩ :=
    buildTunnels_spec L m (by omega) T 0 Colony.initStore []
  have hstore : (Colony.mkColony f T L m).store =
      (Colony.buildTunnels L m T 0 Colony.initStore []).1 := rfl
  have hents : (Colony.mkColony f T L m).beeEntrances =
      (Colony.buildTunnels L m T 0 Colony.initStore []).2 := rfl
  refine ⟨?_, ?_, fun t s ht hs => ⟨?_, ?_, ?_⟩⟩
  · rw [hents, BTlen]
    simp
  · show ((Colony.buildTunnels L m T 0 Colony.initStore []).1 0).exit = none
    rw [BTqueen (by omega)]
    rfl
  · rw [hstore, BTj t s (by omega) (by omega) hs]
    rfl
  · rw [hstore, BTj t s (by omega) (by omega) hs]
    show (if s + 1 < L then some (Colony.pid L t (s + 1)) else none).isSome ↔
      s + 1 < L
    by_cases h : s + 1 < L
    · simp [h]
    · simp [h]
  · rw [hstore, BTj t s (by omega) (by omega) hs]
    show Colony.isWaterStep m s = true ↔ (m ≠ 0 ∧ (s + 1) % m = 0)
    simp [Colony.isWaterStep, Bool.and_eq_true, decide_eq_true_eq]

theorem mkColony_structure_witness :
    (Colony.mkColony 5 2 3 2).beeEntrances.length = 2 ∧
    ((Colony.mkColony 5 2 3 2).store (Colony.pid 3 1 1)).water = true := by
  have h := mkColony_structure 5 2 3 2 (by omega) (by omega)
  exact ⟨h.1, (h.2.2 1 1 (by omega) (by omega)).2.2.mpr ⟨by omega, by omega⟩⟩

/-- C5 counterexample: in the colony with one tunnel of length two, the
location at 0-based step index 1 — a non-queen location that is not the
first step of its tunnel — has no `entrance` link: the constructor leaves
`entrance` undefined on the last step of each tunnel, not the first. -/
theorem mkColony_entrance_counterexample :
    ((Colony.mkColony 10 1 2 0).store (Colony.pid 2 0 1)).name = "tunnel[0,1]" ∧
    ((Colony.mkColony 10 1 2 0).store (Colony.pid 2 0 1)).entrance = none ∧
    (1 : Nat) ≠ 0 := by
  refine ⟨by decide, by decide, by decide⟩

/-! ### Claim C8: `Hive.invade` -/

theorem removeFirst_append_of_not_mem (b : Nat) :
    ∀ (xs ys : List Nat), b ∉ xs →
      Place.removeFirst (xs ++ ys) b = xs ++ Place.removeFirst ys b := by
  intro xs
  induction xs with
  | nil => intro ys _; rfl
  | cons x xs ih =>
    intro ys hb
    have hxb : x ≠ b := fun hxb => hb (by simp [hxb])
    show (if x = b then xs ++ ys else x :: Place.removeFirst (xs ++ ys) b) = _
    rw [if_neg hxb, ih ys (fun hmem => hb (by simp [hmem]))]
    rfl

theorem foldl_removeFirst_restore :
    ∀ (ws bs : List Nat), (∀ b ∈ ws, b ∉ bs) →
      ws.foldl Place.removeFirst (bs ++ ws) = bs := by
  intro ws
  induction ws with
  | nil => intro bs _; simp
  | cons w ws ih =>
    intro bs hdisj
    show ws.foldl Place.removeFirst (Place.removeFirst (bs ++ w :: ws) w) = bs
    rw [removeFirst_append_of_not_mem w bs (w :: ws) (hdisj w (by simp))]
    show ws.foldl Place.removeFirst (bs ++ if w = w then ws else _) = bs
    rw [if_pos rfl]
    exact ih bs (fun b hb => hdisj b (by simp [hb]))

theorem invadeStep_hive (ch : Nat → Nat) (hc : Hive × Colony) (b : Nat) :
    (Hive.invadeStep ch hc b).1 =
      { hc.1 with bees := Place.removeFirst hc.1.bees b } := by
  unfold Hive.invadeStep
  dsimp only
  split <;> rfl

theorem invadeStep_entrances (ch : Nat → Nat) (hc : Hive × Colony) (b : Nat) :
    (Hive.invadeStep ch hc b).2.beeEntrances = hc.2.beeEntrances := by
  unfold Hive.invadeStep
  dsimp only
  split <;> rfl

theorem invadeStep_store_mono (ch : Nat → Nat) (hc : Hive × Colony)
    (b b' : Nat) (p : Nat) (hmem : b' ∈ (hc.2.store p).bees) :
    b' ∈ ((Hive.invadeStep ch hc b).2.store p).bees := by
  unfold Hive.invadeStep
  dsimp only
  split
  · next e _ =>
    show b' ∈ ((Store.update hc.2.store e (Place.addBee (hc.2.store e) b)) p).bees
    by_cases hpe : p = e
    · subst hpe
      rw [Store.update_self]
      exact List.mem_append_left _ hmem
    · rw [Store.update_other _ _ _ _ hpe]
      exact hmem
  · exact hmem

theorem foldl_invadeStep_hive (ch : Nat → Nat) :
    ∀ (l : List Nat) (hc : Hive × Colony),
      (l.foldl (Hive.invadeStep ch) hc).1 =
        { hc.1 with bees := l.foldl Place.removeFirst hc.1.bees } := by
  intro l
  induction l with
  | nil => intro hc; rfl
  | cons b l ih =>
    intro hc
    show ((l.foldl (Hive.invadeStep ch) (Hive.invadeStep ch hc b))).1 = _
    rw [ih (Hive.invadeStep ch hc b), invadeStep_hive]
    rfl

theorem foldl_invadeStep_entrances (ch : Nat → Nat) :
    ∀ (l : List Nat) (hc : Hive × Colony),
      (l.foldl (Hive.invadeStep ch) hc).2.beeEntrances = hc.2.beeEntrances := by
  intro l
  induction l with
  | nil => intro hc; rfl
  | cons b l ih =>
    intro hc
    show ((l.foldl (Hive.invadeStep ch) (Hive.invadeStep ch hc b))).2.beeEntrances = _
    rw [ih (Hive.invadeStep ch hc b), invadeStep_entrances]

theorem foldl_invadeStep_store_mono (ch : Nat → Nat) :
    ∀ (l : List Nat) (hc : Hive × Colony) (b' : Nat) (p : Nat),
      b' ∈ (hc.2.store p).bees →
      b' ∈ ((l.foldl (Hive.invadeStep ch) hc).2.store p).bees := by
  intro l
  induction l with
  | nil => intro hc b' p hmem; exact hmem
  | cons b l ih =>
    intro hc b' p hmem
    exact ih (Hive.invadeStep ch hc b) b' p (invadeStep_store_mono ch hc b b' p hmem)

theorem foldl_invadeStep_attach (ch : Nat → Nat) :
    ∀ (l : List Nat) (hc : Hive × Colony) (b : Nat), b ∈ l →
      ch b < hc.2.beeEntrances.length →
      ∃ e ∈ hc.2.beeEntrances,
        b ∈ ((l.foldl (Hive.invadeStep ch) hc).2.store e).bees := by
  intro l
  induction l with
  | nil => intro hc b hb _; exact absurd hb (by simp)
  | cons w l ih =>
    intro hc b hb hlt
    rcases List.mem_cons.mp hb with hbw | hbl
    · subst hbw
      have hget : hc.2.beeEntrances.get? (ch b) =
          some (hc.2.beeEntrances.get ⟨ch b, hlt⟩) := List.get?_eq_get hlt
      refine ⟨hc.2.beeEntrances.get ⟨ch b, hlt⟩, List.get_mem _ _ _, ?_⟩
      show b ∈ ((l.foldl (Hive.invadeStep ch) (Hive.invadeStep ch hc b)).2.store _).bees
      apply foldl_invadeStep_store_mono
      unfold Hive.invadeStep
      dsimp only
      rw [hget]
      show b ∈ ((Store.update hc.2.store (hc.2.beeEntrances.get ⟨ch b, hlt⟩)
        (Place.addBee (hc.2.store (hc.2.beeEntrances.get ⟨ch b, hlt⟩)) b))
        (hc.2.beeEntrances.get ⟨ch b, hlt⟩)).bees
      rw [Store.update_self]
      exact List.mem_append_right _ (by simp)
    · have hstep := invadeStep_entrances ch hc w
      show ∃ e ∈ hc.2.beeEntrances,
        b ∈ ((l.foldl (Hive.invadeStep ch) (Hive.invadeStep ch hc w)).2.store e).bees
      rw [← hstep]
      exact ih (Hive.invadeStep ch hc w) b hbl (by rw [hstep]; exact hlt)

theorem wavesLookup_cons (kv : Nat × List Nat) (ws : List (Nat × List Nat))
    (t : Nat) :
    Hive.wavesLookup (kv :: ws) t =
      if kv.1 = t then some kv.2 else Hive.wavesLookup ws t := by
  by_cases h : kv.1 = t
  · rw [if_pos h]
    unfold Hive.wavesLookup
    rw [List.find?_cons_of_pos _ (by simp [h])]
    rfl
  · rw [if_neg h]
    unfold Hive.wavesLookup
    rw [List.find?_cons_of_neg _ (by simp [h])]

theorem wavesLookup_wavesSet_self (t : Nat) (w : List Nat) :
    ∀ ws, Hive.wavesLookup (Hive.wavesSet ws t w) t = some w := by
  intro ws
  induction ws with
  | nil =>
    show Hive.wavesLookup [(t, w)] t = some w
    rw [wavesLookup_cons]
    simp
  | cons kv ws ih =>
    by_cases hkv : kv.1 = t
    · show Hive.wavesLookup (if kv.1 = t then (t, w) :: ws
        else kv :: Hive.wavesSet ws t w) t = some w
      rw [if_pos hkv, wavesLookup_cons]
      simp
    · show Hive.wavesLookup (if kv.1 = t then (t, w) :: ws
        else kv :: Hive.wavesSet ws t w) t = some w
      rw [if_neg hkv, wavesLookup_cons, if_neg hkv]
      exact ih

/-- C8: when a wave of `n` bees was scheduled for turn `t` by `addWave`,
`invade` at turn `t` detaches each of the wave's bees from the hive's bee
list (the hive retains exactly its prior bees) and attaches each to some
location of the colony's entrance set, returning the scheduled wave; at a
turn with no scheduled wave, `invade` returns an empty wave and changes
neither the hive nor the colony. -/
theorem invade_spec (h0 : Hive) (c : Colony) (t n : Nat) (ch : Nat → Nat)
    (hfresh : ∀ b ∈ h0.bees, b < h0.nextBeeId)
    (hch : ∀ b, ch b < c.beeEntrances.length) :
    (∀ t', Hive.wavesLookup h0.waves t' = none →
      Hive.invade h0 c t' ch = (h0, c, [])) ∧
    (Hive.invade (Hive.addWave h0 t n) c t ch).2.2.length = n ∧
    Hive.wavesLookup (Hive.addWave h0 t n).waves t =
      some (Hive.invade (Hive.addWave h0 t n) c t ch).2.2 ∧
    (Hive.invade (Hive.addWave h0 t n) c t ch).1.bees = h0.bees ∧
    (∀ b ∈ (Hive.invade (Hive.addWave h0 t n) c t ch).2.2,
      b ∉ (Hive.invade (Hive.addWave h0 t n) c t ch).1.bees) ∧
    (∀ b ∈ (Hive.invade (Hive.addWave h0 t n) c t ch).2.2,
      ∃ e ∈ c.beeEntrances,
        b ∈ ((Hive.invade (Hive.addWave h0 t n) c t ch).2.1.store e).bees) := by
  have hwave : (Hive.addWave h0 t n).waves =
      Hive.wavesSet h0.waves t ((List.range n).map (fun i => h0.nextBeeId + i)) :=
    rfl
  have hlk : Hive.wavesLookup (Hive.addWave h0 t n).waves t =
      some ((List.range n).map (fun i => h0.nextBeeId + i)) := by
    rw [hwave]
    exact wavesLookup_wavesSet_self t _ h0.waves
  have hinv : Hive.invade (Hive.addWave h0 t n) c t ch =
      ((((List.range n).map (fun i => h0.nextBeeId + i)).foldl
          (Hive.invadeStep ch) (Hive.addWave h0 t n, c)).1,
       (((List.range n).map (fun i => h0.nextBeeId + i)).foldl
          (Hive.invadeStep ch) (Hive.addWave h0 t n, c)).2,
       (List.range n).map (fun i => h0.nextBeeId + i)) := by
    unfold Hive.invade
    rw [hlk]
  have hnotmem : ∀ b ∈ (List.range n).map (fun i => h0.nextBeeId + i),
      b ∉ h0.bees := by
    intro b hb hmem
    rcases List.mem_map.mp hb with ⟨i, _, hbi⟩
    have hble : h0.nextBeeId + i = b := hbi
    have hge : h0.nextBeeId ≤ b := hble ▸ Nat.le_add_right _ _
    exact absurd (hfresh b hmem) (Nat.not_lt.mpr hge)
  have hbees : (Hive.invade (Hive.addWave h0 t n) c t ch).1.bees = h0.bees := by
    rw [hinv]
    show ((((List.range n).map (fun i => h0.nextBeeId + i)).foldl
        (Hive.invadeStep ch) (Hive.addWave h0 t n, c)).1).bees = h0.bees
    rw [foldl_invadeStep_hive]
    show ((List.range n).map (fun i => h0.nextBeeId + i)).foldl
        Place.removeFirst (Hive.addWave h0 t n, c).1.bees = h0.bees
    have haw : (Hive.addWave h0 t n, c).1.bees =
        h0.bees ++ (List.range n).map (fun i => h0.nextBeeId + i) := rfl
    rw [haw]
    exact foldl_removeFirst_restore _ h0.bees hnotmem
  refine ⟨fun t' hnone => ?_, ?_, ?_, hbees, fun b hb => ?_, fun b hb => ?_⟩
  · unfold Hive.invade
    rw [hnone]
  · rw [hinv]
    simp
  · rw [hinv, hlk]
  · rw [hbees]
    rw [hinv] at hb
    exact hnotmem b hb
  · rw [hinv] at hb ⊢
    exact foldl_invadeStep_attach ch _ (Hive.addWave h0 t n, c) b hb (hch b)

/-- The oracle always picking the first entrance. -/
def chooseFirst : Nat → Nat := fun _ => 0

theorem invade_spec_witness :
    (Hive.invade (Hive.addWave (Hive.init 3 1) 5 3)
        (Colony.mkColony 10 2 1 0) 5 chooseFirst).2.2.length = 3 ∧
    (Hive.invade (Hive.addWave (Hive.init 3 1) 5 3)
        (Colony.mkColony 10 2 1 0) 5 chooseFirst).1.bees = [] := by
  have h := invade_spec (Hive.init 3 1) (Colony.mkColony 10 2 1 0) 5 3
    chooseFirst (by intro b hb; exact absurd hb (by simp [Hive.init]))
    (by intro b; show (0 : Nat) < _; decide)
  exact ⟨h.2.1, h.2.2.2.1⟩

theorem getClosestBee_spec_witness :
    Place.getClosestBee (fun _ => { bees := [7] } : Store) 0 0 0 = some 7 ∧
    7 ∈ ((fun _ => { bees := [7] } : Store) 0).bees :=
  ⟨by decide,
   (getClosestBee_spec (fun _ => { bees := [7] } : Store) 0 0 0).2 7 (by decide)⟩

end AntsVsBees
